import Mathlib

/-!
# Verification of the string-interning table (`stringTable.cpp`)

Shallow embedding of the StringTable subsystem:

* a *policy* state machine (`StringTable.MState`) covering the maintenance
  coordinator: `gc_notification`, `do_concurrent_work`, `grow`,
  `clean_dead_entries`, `do_rehash`, `rehash_table`;
* a *string pipeline* state machine (`StringTable.StrState`) covering
  `lookup`, `intern` (all public variants), `do_lookup`, `do_intern`,
  `lookup_shared`, the `StringTableConfig` allocation hooks, and the
  CDS-overlay drain `transfer_shared_strings_to_local_table`.

The `double` arithmetic of the source (`get_load_factor`,
`get_dead_factor`) is modelled exactly over `ℚ`; for the integer operand
ranges that reach these comparisons in the source the IEEE comparisons
agree with the exact rational ones (both factor numerators and the
bucket count are far below 2^53, and the thresholds 2.0 and 0.5 are
exactly representable).

Operations of `ConcurrentHashTable` / `CompactHashtable` (the generic
hash-table utilities, which are part of this repository but not among
the given sources) are modelled from the spec; each such definition
carries a doc comment starting with `Modelled from the spec:`.
-/

namespace StringTable

/-- We prefer short chains of avg 2 (`PREF_AVG_LIST_LEN`, src line 65). -/
def PREF_AVG_LIST_LEN : ℚ := 2

/-- 2^24 is max size: maximum `log2` of the bucket count (`END_SIZE`, src line 67). -/
def END_SIZE : Nat := 24

/-- Alarm threshold for one bucket chain (`REHASH_LEN`, src line 69). -/
def REHASH_LEN : Nat := 100

/-- Dead-items high water mark (`CLEAN_DEAD_HIGH_WATER_MARK`, src line 71). -/
def CLEAN_DEAD_HIGH_WATER_MARK : ℚ := 1/2

/-- Maintenance-coordinator view of the process-wide StringTable state.

Fields mirror the statics of `stringTable.cpp`: `_has_work`,
`_needs_rehashing`, `_items_count`, `_current_size`, `_alt_hash`,
`_alt_hash_seed`, and `rehash_table`'s function-local `static bool
rehashed`.  `sizeLog2` is the live table's `get_size_log2`;
`deadCount` abstracts the number of dead slots the bulk-delete task
would reap.  `safepointSafe` models `_local_table->is_safepoint_safe()`
(no structural operation holds the resize lock) and `moveBlocked`
models the environment condition under which
`try_move_nodes_to` fails (a concurrent resize got in between); both
are environment inputs fixed at the start of the transition. -/
structure MState where
  hasWork : Bool
  needsRehashing : Bool
  itemsCount : Nat
  currentSize : Nat
  deadCount : Nat
  altHash : Bool
  altHashSeed : Nat
  rehashed : Bool
  sizeLog2 : Nat
  safepointSafe : Bool
  moveBlocked : Bool
deriving DecidableEq, Repr

/-- `StringTable::get_load_factor` (src 236-238): `_items_count / _current_size`. -/
def get_load_factor (s : MState) : ℚ :=
  (s.itemsCount : ℚ) / (s.currentSize : ℚ)

/-- `StringTable::get_dead_factor` (src 240-242): `num_dead / _current_size`. -/
def get_dead_factor (s : MState) (numDead : Nat) : ℚ :=
  (numDead : ℚ) / (s.currentSize : ℚ)

/-- `StringTable::has_work` (src 479-481). -/
def has_work (s : MState) : Bool := s.hasWork

/-- `StringTable::trigger_concurrent_work` (src 248-252): store `_has_work := true`
and notify the service thread. -/
def trigger_concurrent_work (s : MState) : MState := {s with hasWork := true}

/-- Modelled from the spec: `ConcurrentHashTable::is_max_size_reached` (table
utility outside the given sources) — the table has reached its maximum
size `2^END_SIZE` buckets. -/
def is_max_size_reached (s : MState) : Bool := decide (END_SIZE ≤ s.sizeLog2)

/-- `StringTable::gc_notification` (src 458-477): if a work request is already
outstanding do nothing; otherwise request background work iff
`dead_factor > load_factor` or `load_factor > PREF_AVG_LIST_LEN` or
`dead_factor > CLEAN_DEAD_HIGH_WATER_MARK`. -/
def gc_notification (s : MState) (numDead : Nat) : MState :=
  if has_work s then s
  else
    let load_factor := get_load_factor s
    let dead_factor := get_dead_factor s numDead
    if dead_factor > load_factor ∨ load_factor > PREF_AVG_LIST_LEN ∨
        dead_factor > CLEAN_DEAD_HIGH_WATER_MARK then
      trigger_concurrent_work s
    else s

/-- `StringTable::grow` (src 393-412).  The chunked `GrowTask` itself is
modelled from the spec: `prepare` fails (no-op) when another structural
operation is in flight; otherwise the bucket count doubles (bounded by the
maximum size) and `_current_size` is refreshed from the table. -/
def grow (s : MState) : MState :=
  if ¬ s.safepointSafe ∨ is_max_size_reached s then s
  else
    let newLog := s.sizeLog2 + 1
    {s with sizeLog2 := newLog, currentSize := 2 ^ newLog}

/-- `StringTable::clean_dead_entries` (src 436-456).  The chunked
`BulkDeleteTask` is modelled from the spec: `prepare` fails (no-op) when
another structural operation is in flight; otherwise every dead slot is
unlinked and freed (`free_node` does `item_removed` for each). -/
def clean_dead_entries (s : MState) : MState :=
  if ¬ s.safepointSafe then s
  else {s with itemsCount := s.itemsCount - s.deadCount, deadCount := 0}

/-- Observable steps of `do_concurrent_work`, in program order. -/
inductive MEvent
  | growDone
  | cleanDone
  | clearHasWork
deriving DecidableEq, Repr

/-- `StringTable::do_concurrent_work` (src 483-493): grow when
`load_factor > PREF_AVG_LIST_LEN` and the maximum size is not reached,
otherwise clean dead entries; release-store `_has_work := false` afterwards.
The event list records the program order of the task completion and the
flag clear. -/
def do_concurrent_work (s : MState) : MState × List MEvent :=
  let load_factor := get_load_factor s
  if load_factor > PREF_AVG_LIST_LEN ∧ ¬ is_max_size_reached s then
    let s1 := grow s
    ({s1 with hasWork := false}, [MEvent.growDone, MEvent.clearHasWork])
  else
    let s1 := clean_dead_entries s
    ({s1 with hasWork := false}, [MEvent.cleanDone, MEvent.clearHasWork])

/-- Observable steps of `do_rehash`, in program order. `newTable n` records
that a fresh table with `log2` size `n` was allocated. -/
inductive REvent
  | newTable (log2 : Nat)
  | altHashOn
  | migrateAttempt
  | altHashOff
  | deleteNewTable
  | swapTable
deriving DecidableEq, Repr

/-- `StringTable::do_rehash` (src 496-517): bail out if not safepoint-safe;
allocate the new table at the *current* size (`get_size_log2`, not
`END_SIZE`); set `_alt_hash := true`; then `try_move_nodes_to` (modelled
from the spec: it fails when a concurrent resize is in flight,
`moveBlocked`).  On failure revert `_alt_hash`, delete the new table and
keep the old one; on success the migrated table (same `log2` size)
replaces the old one.  `_current_size` is not touched here. -/
def do_rehash (s : MState) : Bool × MState × List REvent :=
  if ¬ s.safepointSafe then (false, s, [])
  else
    let new_size := s.sizeLog2
    let s1 := {s with altHash := true}
    if s1.moveBlocked then
      (false, {s1 with altHash := false},
        [REvent.newTable new_size, REvent.altHashOn, REvent.migrateAttempt,
         REvent.altHashOff, REvent.deleteNewTable])
    else
      (true, {s1 with sizeLog2 := new_size},
        [REvent.newTable new_size, REvent.altHashOn, REvent.migrateAttempt,
         REvent.swapTable])

/-- Which branch of `rehash_table` ran. -/
inductive RehashOutcome
  | grewInstead
  | alreadyRehashed
  | rehashedOk
  | rehashFailed
deriving DecidableEq, Repr

/-- `StringTable::rehash_table` (src 519-548).  `newSeed` stands for the
value of `AltHashing::compute_seed()` (external collaborator).  Branches in
source order: grow instead of rehash; already rehashed once this process
lifetime; otherwise refresh the alternate seed and attempt `do_rehash`,
remembering success in the function-local `rehashed`. `_needs_rehashing`
is cleared on every path. -/
def rehash_table (s : MState) (newSeed : Nat) : MState × RehashOutcome × List REvent :=
  if get_load_factor s > PREF_AVG_LIST_LEN ∧ ¬ is_max_size_reached s then
    ({trigger_concurrent_work s with needsRehashing := false}, RehashOutcome.grewInstead, [])
  else if s.rehashed then
    ({trigger_concurrent_work s with needsRehashing := false}, RehashOutcome.alreadyRehashed, [])
  else
    match do_rehash {s with altHashSeed := newSeed} with
    | (true, s2, ev) =>
      ({s2 with rehashed := true, needsRehashing := false}, RehashOutcome.rehashedOk, ev)
    | (false, s2, ev) =>
      ({s2 with needsRehashing := false}, RehashOutcome.rehashFailed, ev)

/-! ## String pipeline -/

/-- Unicode (`jchar`) string content. -/
abbrev UStr := List Nat

/-- A Java heap `String` object: an identity plus its character content.
Identity distinguishes "the overlay's reference" from an equal-content
object created elsewhere. -/
structure Oop where
  oid : Nat
  content : UStr
deriving DecidableEq, Repr

/-- A `WeakHandle`: a cell of the `OopStorage` backing store (`whId`) created
for a particular target object.  `peek`/`resolve` observe the target;
whether the target is still live is recorded in the state (`deadIds`). -/
structure WeakHandle where
  whId : Nat
  target : Oop
deriving DecidableEq, Repr

/-- Hash probes issued by the pipeline, in order: a probe of the shared
(archive overlay) table, a `get` of the mutable table, an `insert` into the
mutable table — each recording the hash value used. -/
inductive Probe
  | shared (hash : Nat)
  | localGet (hash : Nat)
  | localInsert (hash : Nat)
deriving DecidableEq, Repr

/-- The external hashing collaborators: `java_lang_String::hash_code`
(the default, unseeded string hash) and `AltHashing::halfsiphash_32`
(taking `_alt_hash_seed`). -/
structure HashFns where
  hash_code : UStr → Nat
  halfsiphash : Nat → UStr → Nat

/-- String-pipeline view of the process-wide StringTable state.

`sharedTable` is the read-only archive overlay (`_shared_table`): pairs of
stored hash and archived string.  `localTable` is the mutable
`ConcurrentHashTable` (`_local_table`): nodes pairing the insertion hash
with the owned `WeakHandle`.  `deadIds` holds the ids of storage cells
whose target the collector has reclaimed (`peek() == nullptr`).
`itemsCount` is `_items_count`; `storageNext`/`storageLive`/`releaseLog`
model the `OopStorage` backing store (next fresh cell id, cells currently
allocated, and the log of every `release` call); `nextOopId` numbers
freshly created `String` objects; `probes` is the instrumentation trace of
table probes. -/
structure StrState where
  sharedTable : List (Nat × Oop)
  localTable : List (Nat × WeakHandle)
  deadIds : List Nat
  itemsCount : Nat
  altHash : Bool
  altHashSeed : Nat
  storageNext : Nat
  storageLive : List Nat
  releaseLog : List Nat
  nextOopId : Nat
  probes : List Probe
deriving DecidableEq, Repr

/-- `hash_string` (src 114-118): the alternate (seeded) hash when `useAlt`,
else `java_lang_String::hash_code`. -/
def hash_string (hf : HashFns) (seed : Nat) (s : UStr) (useAlt : Bool) : Nat :=
  if useAlt then hf.halfsiphash seed s else hf.hash_code s

/-- `java_lang_String::create_from_unicode` (external collaborator): a fresh
`String` object with the given content. -/
def create_from_unicode (st : StrState) (name : UStr) : Oop × StrState :=
  (⟨st.nextOopId, name⟩, {st with nextOopId := st.nextOopId + 1})

/-- `WeakHandle` constructor (`WeakHandle wh(_oop_storage, string_h)`):
acquire a fresh cell of the backing store for the given object. -/
def acquire (st : StrState) (o : Oop) : WeakHandle × StrState :=
  (⟨st.storageNext, o⟩,
   {st with storageNext := st.storageNext + 1,
            storageLive := st.storageLive ++ [st.storageNext]})

/-- `WeakHandle::release(_oop_storage)`: return the cell to the backing
store, logging the release event. -/
def release (st : StrState) (whId : Nat) : StrState :=
  {st with storageLive := st.storageLive.erase whId,
           releaseLog := st.releaseLog ++ [whId]}

/-- `StringTable::item_added` (src 228-230). -/
def item_added (st : StrState) : StrState :=
  {st with itemsCount := st.itemsCount + 1}

/-- `StringTable::item_removed` (src 232-234). -/
def item_removed (st : StrState) : StrState :=
  {st with itemsCount := st.itemsCount - 1}

/-- `StringTableConfig::allocate_node` (src 143-146): counted allocation. -/
def allocate_node (st : StrState) : StrState := item_added st

/-- `StringTableConfig::free_node` (src 147-151): release the node's
`WeakHandle` back to `_oop_storage`, free the memory, `item_removed`. -/
def free_node (st : StrState) (wh : WeakHandle) : StrState :=
  item_removed (release st wh.whId)

/-- Modelled from the spec: `CompactHashtable::lookup` on the read-only
overlay (`_shared_table.lookup(name, hash, len)`) — find an entry whose
recorded hash matches the probe hash and whose decoded string equals the
probe content. -/
def shared_table_lookup : List (Nat × Oop) → UStr → Nat → Option Oop
  | [], _, _ => none
  | (h, o) :: rest, name, hash =>
    if h = hash ∧ o.content = name then some o
    else shared_table_lookup rest name hash

/-- `StringTable::lookup_shared` (src 747-751); records the probe.  The
source asserts the probe hash is `java_lang_String::hash_code(name, len)`. -/
def lookup_shared (st : StrState) (name : UStr) (hash : Nat) : Option Oop × StrState :=
  (shared_table_lookup st.sharedTable name hash,
   {st with probes := st.probes ++ [Probe.shared hash]})

/-- Modelled from the spec: the bucket scan of `ConcurrentHashTable::get`
with the `StringTableLookup*` functors (src 154-216) — a dead slot
(`peek() == nullptr`) is treated as a non-match; otherwise match by string
content equality. -/
def cht_find (dead : List Nat) : List (Nat × WeakHandle) → UStr → Option WeakHandle
  | [], _ => none
  | (_, wh) :: rest, name =>
    if wh.whId ∉ dead ∧ wh.target.content = name then some wh
    else cht_find dead rest name

/-- `StringTable::do_lookup` (src 289-297): probe `_local_table->get` and
resolve the found handle.  (The `update_needs_rehash` plumbing is part of
the policy state machine and carries no information used here.) -/
def do_lookup (st : StrState) (name : UStr) (hash : Nat) : Option Oop × StrState :=
  let st1 := {st with probes := st.probes ++ [Probe.localGet hash]}
  match cht_find st.deadIds st.localTable name with
  | some wh => (some wh.target, st1)
  | none => (none, st1)

/-- `StringTable::lookup(const jchar*, int)` (src 262-272): default hash,
shared-table probe first; on a miss, recompute the hash with the alternate
seed iff `_alt_hash`, then probe the mutable table. -/
def lookup (hf : HashFns) (st : StrState) (name : UStr) : Option Oop × StrState :=
  let hash := hf.hash_code name
  let r := lookup_shared st name hash
  match r.1 with
  | some s => (some s, r.2)
  | none =>
    let hash2 := if st.altHash then hash_string hf st.altHashSeed name true else hash
    do_lookup r.2 name hash2

/-- Modelled from the spec: `ConcurrentHashTable::insert`
(`insert_if_absent`) — the node is allocated up front
(`StringTableConfig::allocate_node`); if an equal live value is already
present the insert fails and the node is destroyed through
`StringTableConfig::free_node` (releasing the candidate `WeakHandle`
exactly once); otherwise the node is linked into the bucket and the table
owns the handle. -/
def cht_insert (st : StrState) (hash : Nat) (name : UStr) (wh : WeakHandle) :
    Bool × StrState :=
  let st1 := allocate_node {st with probes := st.probes ++ [Probe.localInsert hash]}
  match cht_find st1.deadIds st1.localTable name with
  | some _ => (false, free_node st1 wh)
  | none => (true, {st1 with localTable := (hash, wh) :: st1.localTable})

/-- `StringTable::do_intern` (src 349-390): materialize the string if the
caller passed none; then the do/while body: create a candidate
`WeakHandle`, `insert` (the table takes ownership either way); on success
return the candidate's resolved value, otherwise `get` the concurrent
winner's value.  Sequentially a failed insert means an equal live entry is
in the table, so the immediate `get` finds it and the loop's retry branch
is unreachable (`do_intern_conflict_get_some`); the final fallback is that
retry continuation. -/
def do_intern (st : StrState) (string_or_null : Option Oop)
    (name : UStr) (hash : Nat) : Oop × StrState :=
  let p :=
    match string_or_null with
    | some o => (o, st)
    | none => create_from_unicode st name
  let q := acquire p.2 p.1
  let r := cht_insert q.2 hash name q.1
  if r.1 then (q.1.target, r.2)
  else
    let st4 := {r.2 with probes := r.2.probes ++ [Probe.localGet hash]}
    match cht_find st4.deadIds st4.localTable name with
    | some whF => (whF.target, st4)
    | none => (q.1.target, st4)

/-- `StringTable::intern(Handle, const jchar*, int, TRAPS)` (src 332-347):
shared table probed with the default `java_lang_String::hash_code`; on a
miss the hash is recomputed with the alternate seed iff `_alt_hash`, the
mutable table is probed, and only then does `do_intern` run. -/
def intern (hf : HashFns) (st : StrState) (string_or_null : Option Oop)
    (name : UStr) : Oop × StrState :=
  let hash := hf.hash_code name
  let r := lookup_shared st name hash
  match r.1 with
  | some found => (found, r.2)
  | none =>
    let hash2 := if st.altHash then hash_string hf st.altHashSeed name true else hash
    let r2 := do_lookup r.2 name hash2
    match r2.1 with
    | some found => (found, r2.2)
    | none => do_intern r2.2 string_or_null name hash2

/-- `StringTable::intern(Symbol*, TRAPS)` (src 300-308): null symbol returns
null at once; otherwise intern the symbol's unicode characters with a null
string handle.  A `Symbol` is modelled by its unicode content
(`symbol->as_unicode`). -/
def intern_symbol (hf : HashFns) (st : StrState) (symbol : Option UStr) :
    Option Oop × StrState :=
  match symbol with
  | none => (none, st)
  | some sym =>
    let r := intern hf st none sym
    (some r.1, r.2)

/-- `java_lang_String::as_unicode_string(string, length, CHECK_NULL)`
(external collaborator): may fail with an out-of-memory exception, which
the environment input `oomOn` decides; `none` is a pending exception. -/
def as_unicode_string (oomOn : Oop → Bool) (o : Oop) : Option UStr :=
  if oomOn o then none else some o.content

/-- `StringTable::intern(oop, TRAPS)` (src 310-319): null string returns
null at once; otherwise convert to unicode (can raise OOM: outer `none`)
and intern with the string itself as the handle. -/
def intern_oop (hf : HashFns) (oomOn : Oop → Bool) (st : StrState)
    (string : Option Oop) : Option (Option Oop × StrState) :=
  match string with
  | none => some (none, st)
  | some o =>
    match as_unicode_string oomOn o with
    | none => none
    | some chars =>
      let r := intern hf st (some o) chars
      some (some r.1, r.2)

/-- `StringTable::intern(const char*, TRAPS)` (src 321-330): null UTF-8
string returns null at once; otherwise convert to unicode
(`UTF8::convert_to_unicode`, modelled by `utf8_to_unicode`) and intern
with a null string handle. -/
def intern_utf8 (hf : HashFns) (utf8_to_unicode : List Nat → UStr)
    (st : StrState) (utf8_string : Option (List Nat)) : Option Oop × StrState :=
  match utf8_string with
  | none => (none, st)
  | some u =>
    let r := intern hf st none (utf8_to_unicode u)
    (some r.1, r.2)

/-- `SharedStringTransfer::do_value` iterated over the overlay copy
(src 814-831, 848): intern each archived string via the oop variant; a
pending exception aborts the process (`vm_exit_during_initialization`),
modelled as `none`. -/
def shared_string_transfer (hf : HashFns) (oomOn : Oop → Bool) :
    StrState → List (Nat × Oop) → Option StrState
  | st, [] => some st
  | st, (_, o) :: rest =>
    match intern_oop hf oomOn st (some o) with
    | none => none
    | some r => shared_string_transfer hf oomOn r.2 rest

/-- `StringTable::transfer_shared_strings_to_local_table` (src 837-849):
copy the shared table, reset it (so `intern` will not look up from there),
then intern every element of the copy into `_local_table`. -/
def transfer_shared_strings_to_local_table (hf : HashFns) (oomOn : Oop → Bool)
    (st : StrState) : Option StrState :=
  let shared_table_copy := st.sharedTable
  let st1 := {st with sharedTable := []}
  shared_string_transfer hf oomOn st1 shared_table_copy

/-- A sequence of chain-length alarms: run `rehash_table` once per seed in
the list, collecting the outcomes. -/
def run_alarms (s : MState) : List Nat → MState × List RehashOutcome
  | [] => (s, [])
  | seed :: rest =>
    ((run_alarms (rehash_table s seed).1 rest).1,
     (rehash_table s seed).2.1 :: (run_alarms (rehash_table s seed).1 rest).2)

/-- Number of completed rehashes in a list of outcomes. -/
def countRehashes : List RehashOutcome → Nat
  | [] => 0
  | RehashOutcome.rehashedOk :: rest => countRehashes rest + 1
  | _ :: rest => countRehashes rest

/-- The string `do_intern` operates on: the caller's handle, or a freshly
created `String` when the caller passed null (src 354-358). -/
def string_h (st : StrState) (so : Option Oop) (name : UStr) : Oop :=
  match so with
  | some o => o
  | none => ⟨st.nextOopId, name⟩

/-! ## Theorems: maintenance policy -/

/-- C1: on `gc_notification(num_dead)` background maintenance work is
requested iff no work request is already outstanding and, with
`load_factor = item_count/size` and `dead_factor = num_dead/size`,
`dead_factor > load_factor` or `load_factor > 2.0` or
`dead_factor > 0.5`; a load factor exactly `2.0` with
`dead_factor ≤ min(load_factor, 0.5)` does not trigger work, and when a
work request is outstanding the call changes no state. -/
theorem gc_notification_spec (s : MState) (n : Nat) (_hsize : 0 < s.currentSize) :
    (gc_notification s n =
      if s.hasWork = false ∧
          (get_dead_factor s n > get_load_factor s ∨
           get_load_factor s > 2 ∨ get_dead_factor s n > 1/2) then
        trigger_concurrent_work s
      else s)
    ∧ (get_load_factor s = 2 →
        get_dead_factor s n ≤ min (get_load_factor s) (1/2) →
        gc_notification s n = s)
    ∧ (s.hasWork = true → gc_notification s n = s) := by
  have h2 : PREF_AVG_LIST_LEN = (2 : ℚ) := rfl
  have hc : CLEAN_DEAD_HIGH_WATER_MARK = (1/2 : ℚ) := rfl
  refine ⟨?_, ?_, ?_⟩
  · by_cases hw : s.hasWork
    · simp [gc_notification, has_work, hw]
    · simp only [gc_notification, has_work, hw, h2, hc]
      simp [hw]
  · intro hlf hdf
    have hdf2 : get_dead_factor s n ≤ (1/2 : ℚ) := le_trans hdf (min_le_right _ _)
    have hnd : ¬ (get_dead_factor s n > get_load_factor s) := by
      rw [hlf]; linarith
    have hnl : ¬ (get_load_factor s > PREF_AVG_LIST_LEN) := by
      rw [hlf, h2]; exact lt_irrefl 2
    have hnc : ¬ (get_dead_factor s n > CLEAN_DEAD_HIGH_WATER_MARK) := by
      rw [hc]; linarith
    unfold gc_notification
    by_cases hw : has_work s
    · rw [if_pos hw]
    · rw [if_neg hw, if_neg]
      push_neg
      exact ⟨le_of_not_lt hnd, le_of_not_lt hnl, le_of_not_lt hnc⟩
  · intro hw
    unfold gc_notification
    rw [if_pos]
    exact hw

/-- Concrete check of `gc_notification_spec`: an outstanding work request
makes the call a no-op, and a load factor of exactly 2 with a small dead
factor does not trigger work. -/
theorem gc_notification_spec_witness :
    gc_notification ⟨true, false, 8, 4, 0, false, 0, false, 2, true, false⟩ 1
      = ⟨true, false, 8, 4, 0, false, 0, false, 2, true, false⟩
    ∧ gc_notification ⟨false, false, 8, 4, 0, false, 0, false, 2, true, false⟩ 2
      = ⟨false, false, 8, 4, 0, false, 0, false, 2, true, false⟩ := by
  constructor
  · exact (gc_notification_spec _ 1 (by norm_num)).2.2 rfl
  · refine (gc_notification_spec _ 2 (by norm_num)).2.1 ?_ ?_
    · show ((8 : ℚ) / 4) = 2
      norm_num
    · show ((2 : ℚ) / 4) ≤ min ((8 : ℚ) / 4) (1/2)
      norm_num

/-- C4: one run of the maintenance work routine runs the grow task iff the
load factor exceeds 2.0 and the table is not at maximum size, and the
bulk-delete task in every other case; the outstanding-work flag is cleared
only after the chosen task completes (the flag clear is the last event,
strictly after the task-done event). -/
theorem do_concurrent_work_spec (s : MState) (_hsize : 0 < s.currentSize) :
    ((get_load_factor s > 2 ∧ is_max_size_reached s = false) →
      do_concurrent_work s =
        ({grow s with hasWork := false}, [MEvent.growDone, MEvent.clearHasWork]))
    ∧ (¬ (get_load_factor s > 2 ∧ is_max_size_reached s = false) →
      do_concurrent_work s =
        ({clean_dead_entries s with hasWork := false},
         [MEvent.cleanDone, MEvent.clearHasWork]))
    ∧ (do_concurrent_work s).1.hasWork = false
    ∧ (do_concurrent_work s).2.getLast? = some MEvent.clearHasWork := by
  have h2 : PREF_AVG_LIST_LEN = (2 : ℚ) := rfl
  by_cases hcond : get_load_factor s > 2 ∧ ¬ is_max_size_reached s
  · have hcond2 : get_load_factor s > PREF_AVG_LIST_LEN ∧ ¬ is_max_size_reached s := by
      rw [h2]; exact hcond
    refine ⟨fun _ => ?_, fun hn => absurd ?_ hn, ?_, ?_⟩
    · unfold do_concurrent_work
      rw [if_pos hcond2]
    · exact ⟨hcond.1, by simpa using hcond.2⟩
    · unfold do_concurrent_work
      rw [if_pos hcond2]
    · unfold do_concurrent_work
      rw [if_pos hcond2]
      rfl
  · have hcond2 : ¬ (get_load_factor s > PREF_AVG_LIST_LEN ∧ ¬ is_max_size_reached s) := by
      rw [h2]; exact hcond
    refine ⟨fun hp => absurd ?_ hcond, fun _ => ?_, ?_, ?_⟩
    · exact ⟨hp.1, by simp [hp.2]⟩
    · unfold do_concurrent_work
      rw [if_neg hcond2]
    · unfold do_concurrent_work
      rw [if_neg hcond2]
    · unfold do_concurrent_work
      rw [if_neg hcond2]
      rfl

/-- Concrete check of `do_concurrent_work_spec`: with load factor 3 and the
maximum size not reached, the grow task runs; with load factor 1, the
bulk-delete task runs. -/
theorem do_concurrent_work_spec_witness :
    do_concurrent_work ⟨true, false, 12, 4, 0, false, 0, false, 2, true, false⟩ =
      ({grow ⟨true, false, 12, 4, 0, false, 0, false, 2, true, false⟩ with hasWork := false},
       [MEvent.growDone, MEvent.clearHasWork])
    ∧ do_concurrent_work ⟨true, false, 4, 4, 1, false, 0, false, 2, true, false⟩ =
      ({clean_dead_entries ⟨true, false, 4, 4, 1, false, 0, false, 2, true, false⟩ with
          hasWork := false},
       [MEvent.cleanDone, MEvent.clearHasWork]) := by
  constructor
  · refine (do_concurrent_work_spec _ (by norm_num)).1 ⟨?_, by decide⟩
    show ((12 : ℚ) / 4) > 2
    norm_num
  · refine (do_concurrent_work_spec _ (by norm_num)).2.1 ?_
    rintro ⟨h, -⟩
    revert h
    show ¬ ((4 : ℚ) / 4) > 2
    norm_num

/-- C6: a chain-length alarm (`rehash_table`) arriving while the load
factor exceeds 2.0 and the table is not at maximum size requests ordinary
background work and clears the rehash-needed flag; no rehash is performed
(no rehash events at all) and no new hash seed is activated (`_alt_hash`
and `_alt_hash_seed` are untouched). -/
theorem rehash_table_grow_preferred (s : MState) (seed : Nat)
    (hlf : get_load_factor s > 2) (hmax : is_max_size_reached s = false) :
    rehash_table s seed =
      ({s with hasWork := true, needsRehashing := false},
       RehashOutcome.grewInstead, ([] : List REvent))
    ∧ (rehash_table s seed).1.altHash = s.altHash
    ∧ (rehash_table s seed).1.altHashSeed = s.altHashSeed
    ∧ (rehash_table s seed).1.rehashed = s.rehashed
    ∧ (rehash_table s seed).1.sizeLog2 = s.sizeLog2 := by
  have hcond : get_load_factor s > PREF_AVG_LIST_LEN ∧ ¬ is_max_size_reached s := by
    constructor
    · exact hlf
    · simp [hmax]
  have hmain : rehash_table s seed =
      ({s with hasWork := true, needsRehashing := false},
       RehashOutcome.grewInstead, ([] : List REvent)) := by
    unfold rehash_table
    rw [if_pos hcond]
    rfl
  refine ⟨hmain, ?_, ?_, ?_, ?_⟩ <;> rw [hmain]

/-- Concrete check of `rehash_table_grow_preferred`. -/
theorem rehash_table_grow_preferred_witness :
    rehash_table ⟨false, true, 12, 4, 0, false, 0, false, 2, true, false⟩ 77 =
      ({(⟨false, true, 12, 4, 0, false, 0, false, 2, true, false⟩ : MState) with
          hasWork := true, needsRehashing := false},
       RehashOutcome.grewInstead, ([] : List REvent)) := by
  refine (rehash_table_grow_preferred _ 77 ?_ (by decide)).1
  show ((12 : ℚ) / 4) > 2
  norm_num

/-- Helper: on a state that has already rehashed, `rehash_table` requests
ordinary work, clears the rehash-needed flag, performs no rehash step and
keeps the `rehashed` flag. -/
theorem rehash_table_of_rehashed (s : MState) (seed : Nat) (h : s.rehashed = true) :
    (rehash_table s seed).1 = {s with hasWork := true, needsRehashing := false}
    ∧ (rehash_table s seed).2.1 ≠ RehashOutcome.rehashedOk
    ∧ (rehash_table s seed).2.2 = ([] : List REvent)
    ∧ (rehash_table s seed).1.rehashed = true := by
  unfold rehash_table
  by_cases hg : get_load_factor s > PREF_AVG_LIST_LEN ∧ ¬ is_max_size_reached s
  · rw [if_pos hg]
    exact ⟨rfl, by simp, rfl, h⟩
  · rw [if_neg hg, if_pos h]
    exact ⟨rfl, by simp, rfl, h⟩

/-- Helper: the only branch of `rehash_table` that reports `rehashedOk`
records the completed rehash in the `rehashed` flag. -/
theorem rehash_table_flag_of_ok (s : MState) (seed : Nat)
    (h : (rehash_table s seed).2.1 = RehashOutcome.rehashedOk) :
    (rehash_table s seed).1.rehashed = true := by
  unfold rehash_table at h ⊢
  by_cases hg : get_load_factor s > PREF_AVG_LIST_LEN ∧ ¬ is_max_size_reached s
  · rw [if_pos hg] at h
    simp at h
  · rw [if_neg hg] at h ⊢
    by_cases hr : s.rehashed
    · rw [if_pos hr] at h
      simp at h
    · rw [if_neg hr] at h ⊢
      revert h
      rcases do_rehash {s with altHashSeed := seed} with ⟨ok, s2, ev⟩
      cases ok
      · exact fun h => RehashOutcome.noConfusion h
      · exact fun _ => rfl

/-- Helper: an alarm sequence starting from a state that has already
rehashed performs no rehash at all. -/
theorem countRehashes_zero_of_rehashed (seeds : List Nat) :
    ∀ (s : MState), s.rehashed = true → countRehashes (run_alarms s seeds).2 = 0 := by
  induction seeds with
  | nil => intro s _; rfl
  | cons seed rest ih =>
    intro s h
    obtain ⟨-, hne, -, hflag⟩ := rehash_table_of_rehashed s seed h
    show countRehashes ((rehash_table s seed).2.1 ::
      (run_alarms (rehash_table s seed).1 rest).2) = 0
    rcases ho : (rehash_table s seed).2.1 with _ | _ | _ | _
    · exact ih _ hflag
    · exact ih _ hflag
    · exact absurd ho hne
    · exact ih _ hflag

/-- C5: a full rehash happens at most once per process lifetime: over any
sequence of chain-length alarms at most one alarm completes a rehash; an
alarm arriving once a rehash has completed (`rehashed` set) requests
ordinary background work and clears the rehash-needed flag without any
rehash step; and the first alarm with growth not preferred does trigger
the full rehash. -/
theorem rehash_at_most_once :
    (∀ (s : MState) (seeds : List Nat), countRehashes (run_alarms s seeds).2 ≤ 1)
    ∧ (∀ (s : MState) (seed : Nat), s.rehashed = true →
        (rehash_table s seed).1 = {s with hasWork := true, needsRehashing := false}
        ∧ (rehash_table s seed).2.1 ≠ RehashOutcome.rehashedOk
        ∧ (rehash_table s seed).2.2 = ([] : List REvent))
    ∧ (∀ (s : MState) (seed : Nat), s.rehashed = false →
        ¬ (get_load_factor s > PREF_AVG_LIST_LEN ∧ ¬ is_max_size_reached s) →
        s.safepointSafe = true → s.moveBlocked = false →
        (rehash_table s seed).2.1 = RehashOutcome.rehashedOk) := by
  refine ⟨?_, ?_, ?_⟩
  · intro s seeds
    induction seeds generalizing s with
    | nil => exact Nat.zero_le 1
    | cons seed rest ih =>
      show countRehashes ((rehash_table s seed).2.1 ::
        (run_alarms (rehash_table s seed).1 rest).2) ≤ 1
      rcases ho : (rehash_table s seed).2.1 with _ | _ | _ | _
      · exact ih _
      · exact ih _
      · show countRehashes (run_alarms (rehash_table s seed).1 rest).2 + 1 ≤ 1
        have := countRehashes_zero_of_rehashed rest (rehash_table s seed).1
          (rehash_table_flag_of_ok s seed ho)
        omega
      · exact ih _
  · intro s seed h
    obtain ⟨h1, h2, h3, -⟩ := rehash_table_of_rehashed s seed h
    exact ⟨h1, h2, h3⟩
  · intro s seed hr hg hsafe hmove
    unfold rehash_table
    rw [if_neg hg, if_neg (by simp [hr])]
    have hdr : do_rehash {s with altHashSeed := seed} =
        (true, {s with altHashSeed := seed, altHash := true},
         [REvent.newTable s.sizeLog2, REvent.altHashOn, REvent.migrateAttempt,
          REvent.swapTable]) := by
      unfold do_rehash
      rw [if_neg (by simp [hsafe])]
      rw [if_neg (by simp [hmove])]
    rw [hdr]

/-- Concrete check of `rehash_at_most_once`: three successive alarms on a
table at maximum size complete exactly one rehash, and a state that has
already rehashed yields no `rehashedOk`. -/
theorem rehash_at_most_once_witness :
    countRehashes
      (run_alarms ⟨false, true, 8, 4, 0, false, 0, false, 24, true, false⟩ [1, 2, 3]).2 ≤ 1
    ∧ (rehash_table ⟨false, true, 8, 4, 0, false, 0, true, 24, true, false⟩ 9).2.1
        ≠ RehashOutcome.rehashedOk
    ∧ (rehash_table ⟨false, true, 8, 4, 0, false, 0, false, 24, true, false⟩ 5).2.1
        = RehashOutcome.rehashedOk := by
  refine ⟨rehash_at_most_once.1 _ [1, 2, 3], (rehash_at_most_once.2.1 _ 9 rfl).2.1, ?_⟩
  refine rehash_at_most_once.2.2 _ 5 rfl ?_ rfl rfl
  rintro ⟨-, hmax⟩
  exact hmax (by decide)

/-- C7: `do_rehash` builds the new table at the current size (the first
event records a fresh table at `sizeLog2`, not `END_SIZE`) and activates
the alternate-hash epoch before migration; if migration fails (a
concurrent structural operation in flight) the activation is reverted, the
new table is discarded and the old table stays active unchanged — at the
`rehash_table` level a failed rehash leaves the state as it was except for
the refreshed alternate seed and the cleared rehash-needed flag. -/
theorem do_rehash_spec (s : MState) (seed : Nat)
    (hsafe : s.safepointSafe = true) (halt : s.altHash = false) :
    ((do_rehash s).2.2.take 3 =
      [REvent.newTable s.sizeLog2, REvent.altHashOn, REvent.migrateAttempt])
    ∧ (s.moveBlocked = true →
        do_rehash s = (false, s,
          [REvent.newTable s.sizeLog2, REvent.altHashOn, REvent.migrateAttempt,
           REvent.altHashOff, REvent.deleteNewTable]))
    ∧ (s.moveBlocked = false →
        do_rehash s = (true, {s with altHash := true},
          [REvent.newTable s.sizeLog2, REvent.altHashOn, REvent.migrateAttempt,
           REvent.swapTable]))
    ∧ (s.moveBlocked = true → s.rehashed = false →
        ¬ (get_load_factor s > PREF_AVG_LIST_LEN ∧ ¬ is_max_size_reached s) →
        rehash_table s seed =
          ({s with altHashSeed := seed, needsRehashing := false},
           RehashOutcome.rehashFailed,
           [REvent.newTable s.sizeLog2, REvent.altHashOn, REvent.migrateAttempt,
            REvent.altHashOff, REvent.deleteNewTable])) := by
  have hrestore : ({s with altHash := false} : MState) = s := by
    rw [← halt]
  refine ⟨?_, ?_, ?_, ?_⟩
  · unfold do_rehash
    rw [if_neg (by simp [hsafe])]
    by_cases hm : s.moveBlocked <;> simp [hm]
  · intro hm
    unfold do_rehash
    rw [if_neg (by simp [hsafe]), if_pos (by simpa using hm)]
    rw [← halt]
  · intro hm
    unfold do_rehash
    rw [if_neg (by simp [hsafe]), if_neg (by simp [hm])]
  · intro hm hr hg
    unfold rehash_table
    rw [if_neg hg, if_neg (by simp [hr])]
    have hdr : do_rehash {s with altHashSeed := seed} =
        (false, {s with altHashSeed := seed},
         [REvent.newTable s.sizeLog2, REvent.altHashOn, REvent.migrateAttempt,
          REvent.altHashOff, REvent.deleteNewTable]) := by
      unfold do_rehash
      rw [if_neg (by simp [hsafe]), if_pos (by simpa using hm)]
      rw [← halt]
    rw [hdr]

/-- Concrete check of `do_rehash_spec`: a blocked migration reverts the
state, and at the `rehash_table` level only the seed and the cleared
rehash-needed flag remain. -/
theorem do_rehash_spec_witness :
    do_rehash ⟨false, true, 8, 4, 0, false, 0, false, 24, true, true⟩ =
      (false, ⟨false, true, 8, 4, 0, false, 0, false, 24, true, true⟩,
       [REvent.newTable 24, REvent.altHashOn, REvent.migrateAttempt,
        REvent.altHashOff, REvent.deleteNewTable])
    ∧ rehash_table ⟨false, true, 8, 4, 0, false, 0, false, 24, true, true⟩ 42 =
      ({(⟨false, true, 8, 4, 0, false, 0, false, 24, true, true⟩ : MState) with
          altHashSeed := 42, needsRehashing := false},
       RehashOutcome.rehashFailed,
       [REvent.newTable 24, REvent.altHashOn, REvent.migrateAttempt,
        REvent.altHashOff, REvent.deleteNewTable]) := by
  constructor
  · exact (do_rehash_spec _ 42 rfl rfl).2.1 rfl
  · refine (do_rehash_spec _ 42 rfl rfl).2.2.2 rfl rfl ?_
    rintro ⟨-, hmax⟩
    exact hmax (by decide)

/-! ## Theorems: string pipeline -/

/-- Helper: a `cht_find` hit is a live slot whose content equals the probe. -/
theorem cht_find_found (dead : List Nat) (tbl : List (Nat × WeakHandle)) (name : UStr)
    (wh : WeakHandle) (h : cht_find dead tbl name = some wh) :
    wh.whId ∉ dead ∧ wh.target.content = name := by
  induction tbl with
  | nil => exact absurd h (by simp [cht_find])
  | cons e rest ih =>
    obtain ⟨eh, ewh⟩ := e
    rw [cht_find] at h
    split_ifs at h with hc
    · obtain rfl : ewh = wh := by injection h
      exact hc
    · exact ih h

/-- Helper: field effects of `do_intern` when no live equal entry is in the
mutable table: the insert succeeds, the table links the candidate handle
(`storageNext`) and owns it, nothing is released. -/
theorem do_intern_of_find_none (st : StrState) (so : Option Oop) (name : UStr) (hash : Nat)
    (h : cht_find st.deadIds st.localTable name = none) :
    (do_intern st so name hash).1 = string_h st so name
    ∧ (do_intern st so name hash).2.localTable
        = (hash, ⟨st.storageNext, string_h st so name⟩) :: st.localTable
    ∧ (do_intern st so name hash).2.itemsCount = st.itemsCount + 1
    ∧ (do_intern st so name hash).2.releaseLog = st.releaseLog
    ∧ (do_intern st so name hash).2.storageLive = st.storageLive ++ [st.storageNext]
    ∧ (do_intern st so name hash).2.probes = st.probes ++ [Probe.localInsert hash]
    ∧ (do_intern st so name hash).2.deadIds = st.deadIds
    ∧ (do_intern st so name hash).2.sharedTable = st.sharedTable
    ∧ (do_intern st so name hash).2.storageNext = st.storageNext + 1 := by
  cases so <;>
    simp [do_intern, create_from_unicode, acquire, cht_insert, allocate_node,
      item_added, string_h, h]

/-- Helper: field effects of `do_intern` when a live equal entry is already
in the mutable table: the insert loses, the already-present value is
returned by the retry `get`, the candidate handle is released through
`free_node`, and the table and the item count are unchanged. -/
theorem do_intern_of_find_some (st : StrState) (so : Option Oop) (name : UStr) (hash : Nat)
    (whF : WeakHandle) (h : cht_find st.deadIds st.localTable name = some whF) :
    (do_intern st so name hash).1 = whF.target
    ∧ (do_intern st so name hash).2.localTable = st.localTable
    ∧ (do_intern st so name hash).2.itemsCount = st.itemsCount
    ∧ (do_intern st so name hash).2.releaseLog = st.releaseLog ++ [st.storageNext]
    ∧ (do_intern st so name hash).2.storageLive
        = (st.storageLive ++ [st.storageNext]).erase st.storageNext
    ∧ (do_intern st so name hash).2.probes
        = st.probes ++ [Probe.localInsert hash, Probe.localGet hash]
    ∧ (do_intern st so name hash).2.deadIds = st.deadIds
    ∧ (do_intern st so name hash).2.sharedTable = st.sharedTable
    ∧ (do_intern st so name hash).2.storageNext = st.storageNext + 1 := by
  cases so <;>
    simp [do_intern, create_from_unicode, acquire, cht_insert, free_node, release,
      item_removed, allocate_node, item_added, h]

/-- Helper (sequential collapse of the `do`/`while` in src 375-389): a
failed insert means an equal live entry is present, so the immediately
following `get` finds one — the loop's retry continuation is unreachable
in a single-threaded execution. -/
theorem do_intern_conflict_get_some (st : StrState) (hash : Nat) (name : UStr)
    (wh : WeakHandle) (st2 : StrState)
    (h : cht_insert st hash name wh = (false, st2)) :
    ∃ whF, cht_find st2.deadIds st2.localTable name = some whF := by
  unfold cht_insert at h
  rcases hfind : cht_find st.deadIds st.localTable name with - | whF
  · simp only [allocate_node, item_added, hfind, Prod.mk.injEq] at h
    exact absurd h.1 (by simp)
  · simp only [allocate_node, item_added, hfind, Prod.mk.injEq, true_and] at h
    refine ⟨whF, ?_⟩
    rw [← h]
    exact hfind

/-- C10: each public intern variant — by symbol, by heap value, by UTF-8
byte string — returns null immediately on a null input, without probing
the overlay or the mutable table and without changing any table state (in
particular `item_count`). -/
theorem intern_null_input (hf : HashFns) (oomOn : Oop → Bool)
    (utf8_to_unicode : List Nat → UStr) (st : StrState) :
    intern_symbol hf st none = (none, st)
    ∧ intern_oop hf oomOn st none = some (none, st)
    ∧ intern_utf8 hf utf8_to_unicode st none = (none, st)
    ∧ (intern_symbol hf st none).2.probes = st.probes
    ∧ (intern_symbol hf st none).2.itemsCount = st.itemsCount :=
  ⟨rfl, rfl, rfl, rfl, rfl⟩

/-- C3: `do_intern` hands ownership of the candidate weak reference to the
table in both outcomes.  On a successful insert the candidate's resolved
value is returned and its handle stays allocated, linked in the table,
with no release.  When the insert fails because an equal value is already
present, the retried lookup returns the value already in the table, the
mutable table is unchanged, and the losing candidate's backing weak
reference is released back to the backing store exactly once via the
table's `free_node` path — neither leaked (it leaves the live set) nor
double-released (one release event). -/
theorem do_intern_ownership (st : StrState) (so : Option Oop) (name : UStr) (hash : Nat) :
    (cht_find st.deadIds st.localTable name = none →
      (do_intern st so name hash).1 = string_h st so name
      ∧ (do_intern st so name hash).2.localTable
          = (hash, ⟨st.storageNext, string_h st so name⟩) :: st.localTable
      ∧ (do_intern st so name hash).2.releaseLog = st.releaseLog
      ∧ st.storageNext ∈ (do_intern st so name hash).2.storageLive)
    ∧ (∀ whF, cht_find st.deadIds st.localTable name = some whF →
      (do_intern st so name hash).1 = whF.target
      ∧ (do_intern st so name hash).2.localTable = st.localTable
      ∧ (do_intern st so name hash).2.itemsCount = st.itemsCount
      ∧ (do_intern st so name hash).2.releaseLog = st.releaseLog ++ [st.storageNext]
      ∧ (st.storageNext ∉ st.releaseLog →
          ((do_intern st so name hash).2.releaseLog).count st.storageNext = 1)
      ∧ (st.storageNext ∉ st.storageLive →
          (do_intern st so name hash).2.storageLive = st.storageLive)) := by
  constructor
  · intro h
    obtain ⟨h1, h2, -, h4, h5, -⟩ := do_intern_of_find_none st so name hash h
    refine ⟨h1, h2, h4, ?_⟩
    rw [h5]
    exact List.mem_append_right _ (List.mem_singleton.mpr rfl)
  · intro whF h
    obtain ⟨h1, h2, h3, h4, h5, -⟩ := do_intern_of_find_some st so name hash whF h
    refine ⟨h1, h2, h3, h4, ?_, ?_⟩
    · intro hfresh
      rw [h4, List.count_append, List.count_eq_zero.mpr hfresh]
      simp
    · intro hfresh
      rw [h5, List.erase_append_right _ hfresh]
      simp

/-- Concrete check of `do_intern_ownership`: interning "A" (content `[65]`)
into a table already holding a live equal slot returns the resident value,
releases the candidate handle (id 3) exactly once, and leaves the table
and item count unchanged. -/
theorem do_intern_ownership_witness :
    (do_intern ⟨[], [(7, ⟨0, ⟨5, [65]⟩⟩)], [], 1, false, 0, 3, [0], [], 9, []⟩
        (some ⟨8, [65]⟩) [65] 7).1 = (⟨5, [65]⟩ : Oop)
    ∧ ((do_intern ⟨[], [(7, ⟨0, ⟨5, [65]⟩⟩)], [], 1, false, 0, 3, [0], [], 9, []⟩
        (some ⟨8, [65]⟩) [65] 7).2.releaseLog).count 3 = 1
    ∧ (do_intern ⟨[], [(7, ⟨0, ⟨5, [65]⟩⟩)], [], 1, false, 0, 3, [0], [], 9, []⟩
        (some ⟨8, [65]⟩) [65] 7).2.itemsCount = 1 := by
  have h := (do_intern_ownership
    ⟨[], [(7, ⟨0, ⟨5, [65]⟩⟩)], [], 1, false, 0, 3, [0], [], 9, []⟩
    (some ⟨8, [65]⟩) [65] 7).2 ⟨0, ⟨5, [65]⟩⟩ (by simp [cht_find])
  exact ⟨h.1, h.2.2.2.2.1 (by simp), h.2.2.1⟩

/-- C2: an intern or lookup call whose content value the archive overlay
resolves is answered from the overlay: the hit is returned immediately,
the mutable table is never consulted and no mutable-table slot is created
— the state is unchanged apart from the recorded overlay probe, so
`item_count` stays put; only on an overlay miss does the call fall through
to the mutable table's lookup and, for intern, to insertion. -/
theorem overlay_precedence (hf : HashFns) (st : StrState) (so : Option Oop)
    (name : UStr) (o : Oop)
    (hhit : shared_table_lookup st.sharedTable name (hf.hash_code name) = some o) :
    intern hf st so name
      = (o, {st with probes := st.probes ++ [Probe.shared (hf.hash_code name)]})
    ∧ lookup hf st name
      = (some o, {st with probes := st.probes ++ [Probe.shared (hf.hash_code name)]})
    ∧ (intern hf st so name).2.itemsCount = st.itemsCount
    ∧ (intern hf st so name).2.localTable = st.localTable
    ∧ (∀ (st2 : StrState) (name2 : UStr),
        shared_table_lookup st2.sharedTable name2 (hf.hash_code name2) = none →
        lookup hf st2 name2 =
          do_lookup {st2 with probes := st2.probes ++ [Probe.shared (hf.hash_code name2)]}
            name2
            (if st2.altHash then hf.halfsiphash st2.altHashSeed name2
             else hf.hash_code name2))
    ∧ (∀ (st2 : StrState) (so2 : Option Oop) (name2 : UStr),
        shared_table_lookup st2.sharedTable name2 (hf.hash_code name2) = none →
        cht_find st2.deadIds st2.localTable name2 = none →
        (intern hf st2 so2 name2).2.probes =
          st2.probes ++ [Probe.shared (hf.hash_code name2),
            Probe.localGet (if st2.altHash then hf.halfsiphash st2.altHashSeed name2
              else hf.hash_code name2),
            Probe.localInsert (if st2.altHash then hf.halfsiphash st2.altHashSeed name2
              else hf.hash_code name2)]) := by
  have hintern : intern hf st so name
      = (o, {st with probes := st.probes ++ [Probe.shared (hf.hash_code name)]}) := by
    simp [intern, lookup_shared, hhit]
  refine ⟨hintern, ?_, ?_, ?_, ?_, ?_⟩
  · simp [lookup, lookup_shared, hhit]
  · rw [hintern]
  · rw [hintern]
  · intro st2 name2 hmiss
    simp [lookup, lookup_shared, hash_string, hmiss]
  · intro st2 so2 name2 hmiss hfind
    cases so2 <;>
      simp [intern, lookup_shared, do_lookup, do_intern, create_from_unicode, acquire,
        cht_insert, allocate_node, item_added, hash_string, hmiss, hfind,
        List.append_assoc]

/-- Concrete check of `overlay_precedence`: with "A" (content `[65]`)
resident in the overlay and an empty mutable table, `intern` returns the
overlay's reference and `item_count` stays 0. -/
theorem overlay_precedence_witness :
    intern ⟨fun s => s.length, fun seed s => seed + s.length⟩
        ⟨[(1, ⟨4, [65]⟩)], [], [], 0, false, 0, 0, [], [], 9, []⟩ none [65]
      = (⟨4, [65]⟩,
         {(⟨[(1, ⟨4, [65]⟩)], [], [], 0, false, 0, 0, [], [], 9, []⟩ : StrState) with
            probes := [Probe.shared 1]})
    ∧ (intern ⟨fun s => s.length, fun seed s => seed + s.length⟩
        ⟨[(1, ⟨4, [65]⟩)], [], [], 0, false, 0, 0, [], [], 9, []⟩ none [65]).2.itemsCount
      = 0 := by
  have h := overlay_precedence ⟨fun s => s.length, fun seed s => seed + s.length⟩
    ⟨[(1, ⟨4, [65]⟩)], [], [], 0, false, 0, 0, [], [], 9, []⟩ none [65] ⟨4, [65]⟩
    (by simp [shared_table_lookup])
  exact ⟨h.1, h.2.2.1⟩

/-- C9: the overlay is always probed with the default
`java_lang_String::hash_code`, even when the alternate-hash epoch is
active; a mutable-table probe happens only after an overlay miss, and it
uses the alternate-seed hash exactly when the alternate epoch is active.
The probe trace of `lookup` and of `intern` is exhaustively: overlay hit
(default hash, nothing more); or overlay miss followed by mutable-table
probes all carrying the epoch-selected hash. -/
theorem probe_hash_discipline (hf : HashFns) (st : StrState) (so : Option Oop)
    (name : UStr) :
    ((lookup hf st name).2.probes = st.probes ++ [Probe.shared (hf.hash_code name)]
      ∨ (lookup hf st name).2.probes = st.probes ++ [Probe.shared (hf.hash_code name),
          Probe.localGet (if st.altHash then hf.halfsiphash st.altHashSeed name
            else hf.hash_code name)])
    ∧ ((intern hf st so name).2.probes = st.probes ++ [Probe.shared (hf.hash_code name)]
      ∨ (intern hf st so name).2.probes = st.probes ++ [Probe.shared (hf.hash_code name),
          Probe.localGet (if st.altHash then hf.halfsiphash st.altHashSeed name
            else hf.hash_code name)]
      ∨ (intern hf st so name).2.probes = st.probes ++ [Probe.shared (hf.hash_code name),
          Probe.localGet (if st.altHash then hf.halfsiphash st.altHashSeed name
            else hf.hash_code name),
          Probe.localInsert (if st.altHash then hf.halfsiphash st.altHashSeed name
            else hf.hash_code name)]) := by
  rcases hsh : shared_table_lookup st.sharedTable name (hf.hash_code name) with - | o
  · constructor
    · rcases hfind : cht_find st.deadIds st.localTable name with - | whF <;>
        · right
          simp [lookup, lookup_shared, do_lookup, hash_string, hsh, hfind,
            List.append_assoc]
    · rcases hfind : cht_find st.deadIds st.localTable name with - | whF
      · right; right
        cases so <;>
          simp [intern, lookup_shared, do_lookup, do_intern, create_from_unicode,
            acquire, cht_insert, allocate_node, item_added, hash_string, hsh, hfind,
            List.append_assoc]
      · right; left
        simp [intern, lookup_shared, do_lookup, hash_string, hsh, hfind,
          List.append_assoc]
  · constructor
    · left
      simp [lookup, lookup_shared, hsh]
    · left
      simp [intern, lookup_shared, hsh]

/-- Concrete check of `probe_hash_discipline` on an empty table with the
alternate epoch active. -/
theorem probe_hash_discipline_witness :
    ((lookup ⟨fun s => s.length, fun seed s => seed + s.length⟩
        ⟨[], [], [], 0, true, 10, 0, [], [], 9, []⟩ [65]).2.probes
      = [Probe.shared 1]
      ∨ (lookup ⟨fun s => s.length, fun seed s => seed + s.length⟩
        ⟨[], [], [], 0, true, 10, 0, [], [], 9, []⟩ [65]).2.probes
      = [Probe.shared 1,
         Probe.localGet (if (⟨[], [], [], 0, true, 10, 0, [], [], 9, []⟩ : StrState).altHash
           then 10 + 1 else 1)]) :=
  (probe_hash_discipline ⟨fun s => s.length, fun seed s => seed + s.length⟩
    ⟨[], [], [], 0, true, 10, 0, [], [], 9, []⟩ none [65]).1

/-- Helper: a find that succeeds still succeeds after entries are stacked
on top of the bucket list (later inserts prepend). -/
theorem cht_find_prepend (dead : List Nat) (pre tbl : List (Nat × WeakHandle)) (name : UStr)
    (h : ∃ wh, cht_find dead tbl name = some wh) :
    ∃ wh, cht_find dead (pre ++ tbl) name = some wh := by
  induction pre with
  | nil => exact h
  | cons e rest ih =>
    obtain ⟨eh, ewh⟩ := e
    by_cases hc : ewh.whId ∉ dead ∧ ewh.target.content = name
    · exact ⟨ewh, by rw [List.cons_append, cht_find, if_pos hc]⟩
    · rw [List.cons_append, cht_find, if_neg hc]
      exact ih

/-- Helper: `intern` preserves the overlay, the dead set, the storage
cursor monotonically, and only stacks new entries on the mutable table. -/
theorem intern_preserves (hf : HashFns) (st : StrState) (so : Option Oop) (name : UStr) :
    (intern hf st so name).2.sharedTable = st.sharedTable
    ∧ (intern hf st so name).2.deadIds = st.deadIds
    ∧ st.storageNext ≤ (intern hf st so name).2.storageNext
    ∧ ∃ pre, (intern hf st so name).2.localTable = pre ++ st.localTable := by
  rcases hsh : shared_table_lookup st.sharedTable name (hf.hash_code name) with - | o
  · rcases hfind : cht_find st.deadIds st.localTable name with - | whF
    · have hloc : (intern hf st so name).2.localTable
          = ((if st.altHash then hash_string hf st.altHashSeed name true
              else hf.hash_code name),
             (⟨st.storageNext, string_h st so name⟩ : WeakHandle)) :: st.localTable := by
        cases so <;>
          simp [intern, lookup_shared, do_lookup, do_intern, create_from_unicode, acquire,
            cht_insert, allocate_node, item_added, string_h, hsh, hfind]
      refine ⟨?_, ?_, ?_,
        ⟨[((if st.altHash then hash_string hf st.altHashSeed name true
            else hf.hash_code name),
           (⟨st.storageNext, string_h st so name⟩ : WeakHandle))], hloc⟩⟩ <;>
        cases so <;>
          simp [intern, lookup_shared, do_lookup, do_intern, create_from_unicode, acquire,
            cht_insert, allocate_node, item_added, hash_string, hsh, hfind]
    · refine ⟨?_, ?_, ?_, ⟨[], ?_⟩⟩ <;>
        simp [intern, lookup_shared, do_lookup, hsh, hfind]
  · refine ⟨?_, ?_, ?_, ⟨[], ?_⟩⟩ <;>
      simp [intern, lookup_shared, hsh]

/-- Helper: interning content `name` with an empty overlay leaves a live
mutable-table slot holding `name` (either the pre-existing one or the
freshly inserted candidate). -/
theorem intern_creates_live_slot (hf : HashFns) (st : StrState) (so : Option Oop)
    (name : UStr) (hshared : st.sharedTable = [])
    (hdead : ∀ d ∈ st.deadIds, d < st.storageNext)
    (hso : ∀ o0, so = some o0 → o0.content = name) :
    ∃ wh, cht_find (intern hf st so name).2.deadIds
      (intern hf st so name).2.localTable name = some wh := by
  have hsh : shared_table_lookup st.sharedTable name (hf.hash_code name) = none := by
    rw [hshared]; rfl
  rcases hfind : cht_find st.deadIds st.localTable name with - | whF
  · have hnd : st.storageNext ∉ st.deadIds := fun hmem => absurd (hdead _ hmem) (lt_irrefl _)
    cases so with
    | none =>
      refine ⟨⟨st.storageNext, ⟨st.nextOopId, name⟩⟩, ?_⟩
      simp [intern, lookup_shared, do_lookup, do_intern, create_from_unicode, acquire,
        cht_insert, allocate_node, item_added, hash_string, hsh, hfind, cht_find, hnd]
    | some o0 =>
      have hco : o0.content = name := hso o0 rfl
      refine ⟨⟨st.storageNext, o0⟩, ?_⟩
      simp [intern, lookup_shared, do_lookup, do_intern, create_from_unicode, acquire,
        cht_insert, allocate_node, item_added, hash_string, hsh, hfind, cht_find, hnd, hco]
  · refine ⟨whF, ?_⟩
    simp [intern, lookup_shared, do_lookup, hsh, hfind]

/-- Helper: with an empty overlay, a lookup whose content has a live
mutable-table slot returns that slot's value. -/
theorem lookup_local_hit (hf : HashFns) (st : StrState) (name : UStr) (wh : WeakHandle)
    (hshared : st.sharedTable = [])
    (hfind : cht_find st.deadIds st.localTable name = some wh) :
    (lookup hf st name).1 = some wh.target := by
  have hsh : shared_table_lookup st.sharedTable name (hf.hash_code name) = none := by
    rw [hshared]; rfl
  simp [lookup, lookup_shared, do_lookup, hsh, hfind]

/-- Helper: the drain loop of the overlay transfer, with an empty overlay
and no exceptions, interns every listed entry into the mutable table,
preserving previously established live slots. -/
theorem shared_string_transfer_spec (hf : HashFns) (oomOn : Oop → Bool)
    (entries : List (Nat × Oop)) :
    ∀ (st : StrState), st.sharedTable = [] →
      (∀ d ∈ st.deadIds, d < st.storageNext) →
      (∀ p ∈ entries, oomOn p.2 = false) →
      ∃ st2, shared_string_transfer hf oomOn st entries = some st2
        ∧ st2.sharedTable = []
        ∧ (∀ name, (∃ wh, cht_find st.deadIds st.localTable name = some wh) →
            ∃ wh, cht_find st2.deadIds st2.localTable name = some wh)
        ∧ (∀ p ∈ entries, ∃ wh, cht_find st2.deadIds st2.localTable p.2.content = some wh) := by
  induction entries with
  | nil =>
    intro st h1 h2 h3
    exact ⟨st, rfl, h1, fun name h => h, by simp⟩
  | cons e rest ih =>
    intro st h1 h2 h3
    obtain ⟨eh, o⟩ := e
    have hoom : oomOn o = false := h3 (eh, o) (List.mem_cons_self _ _)
    have hio : intern_oop hf oomOn st (some o) =
        some (some (intern hf st (some o) o.content).1,
              (intern hf st (some o) o.content).2) := by
      simp [intern_oop, as_unicode_string, hoom]
    obtain ⟨hpsh, hpdead, hpnext, pre, hploc⟩ := intern_preserves hf st (some o) o.content
    have hsh2 : (intern hf st (some o) o.content).2.sharedTable = [] := by
      rw [hpsh, h1]
    have hdead2 : ∀ d ∈ (intern hf st (some o) o.content).2.deadIds,
        d < (intern hf st (some o) o.content).2.storageNext := by
      intro d hd
      rw [hpdead] at hd
      exact lt_of_lt_of_le (h2 d hd) hpnext
    have hlive := intern_creates_live_slot hf st (some o) o.content h1 h2
      (fun o0 ho => by injection ho with ho; rw [← ho])
    obtain ⟨st2, htr, hsh3, hpres2, hall2⟩ := ih (intern hf st (some o) o.content).2
      hsh2 hdead2 (fun p hp => h3 p (List.mem_cons_of_mem _ hp))
    refine ⟨st2, ?_, hsh3, ?_, ?_⟩
    · show shared_string_transfer hf oomOn st ((eh, o) :: rest) = some st2
      simp only [shared_string_transfer, hio]
      exact htr
    · intro name hfound
      apply hpres2
      rw [hpdead, hploc]
      exact cht_find_prepend st.deadIds pre st.localTable name hfound
    · intro p hp
      rcases List.mem_cons.mp hp with rfl | hp2
      · exact hpres2 _ hlive
      · exact hall2 p hp2

/-- Helper: if any entry of the iterated list fails to intern (a pending
exception), the drain aborts the process. -/
theorem shared_string_transfer_abort (hf : HashFns) (oomOn : Oop → Bool)
    (entries : List (Nat × Oop)) :
    ∀ (st : StrState), (∃ p ∈ entries, oomOn p.2 = true) →
      shared_string_transfer hf oomOn st entries = none := by
  induction entries with
  | nil =>
    rintro st ⟨p, hp, -⟩
    exact absurd hp (List.not_mem_nil p)
  | cons e rest ih =>
    rintro st ⟨p, hp, hoom⟩
    obtain ⟨eh, o⟩ := e
    by_cases ho : oomOn o = true
    · simp [shared_string_transfer, intern_oop, as_unicode_string, ho]
    · have hio : intern_oop hf oomOn st (some o) =
          some (some (intern hf st (some o) o.content).1,
                (intern hf st (some o) o.content).2) := by
        simp [intern_oop, as_unicode_string, Bool.of_not_eq_true ho]
      simp only [shared_string_transfer, hio]
      apply ih
      rcases List.mem_cons.mp hp with rfl | hp2
      · exact absurd hoom ho
      · exact ⟨p, hp2, hoom⟩

/-- C8: the forced drain of the overlay (snapshot heap loaded rather than
mapped) interns every overlay entry into the mutable table — each drained
value ends with a live mutable-table slot — and leaves the overlay
permanently empty, so every subsequent lookup for those values falls
through to and hits the mutable table; an exception while interning an
entry during the drain aborts the process. -/
theorem transfer_shared_strings_spec (hf : HashFns) (oomOn : Oop → Bool) (st : StrState)
    (hdead : ∀ d ∈ st.deadIds, d < st.storageNext) :
    ((∀ p ∈ st.sharedTable, oomOn p.2 = false) →
      ∃ st2, transfer_shared_strings_to_local_table hf oomOn st = some st2
        ∧ st2.sharedTable = []
        ∧ ∀ p ∈ st.sharedTable,
            ∃ wh, cht_find st2.deadIds st2.localTable p.2.content = some wh
              ∧ wh.target.content = p.2.content
              ∧ (lookup hf st2 p.2.content).1 = some wh.target)
    ∧ ((∃ p ∈ st.sharedTable, oomOn p.2 = true) →
        transfer_shared_strings_to_local_table hf oomOn st = none) := by
  constructor
  · intro hok
    obtain ⟨st2, htr, hsh2, -, hall⟩ := shared_string_transfer_spec hf oomOn st.sharedTable
      {st with sharedTable := []} rfl hdead hok
    refine ⟨st2, htr, hsh2, ?_⟩
    intro p hp
    obtain ⟨wh, hwh⟩ := hall p hp
    obtain ⟨-, hcontent⟩ := cht_find_found _ _ _ _ hwh
    exact ⟨wh, hwh, hcontent, lookup_local_hit hf st2 _ wh hsh2 hwh⟩
  · intro hex
    exact shared_string_transfer_abort hf oomOn st.sharedTable {st with sharedTable := []} hex

/-- Concrete check of `transfer_shared_strings_spec`: draining an overlay
holding "A" (content `[65]`) succeeds, empties the overlay, and leaves
every drained value findable in the mutable table. -/
theorem transfer_shared_strings_spec_witness :
    ∃ st2, transfer_shared_strings_to_local_table
        ⟨fun s => s.length, fun seed s => seed + s.length⟩ (fun _ => false)
        ⟨[(1, ⟨4, [65]⟩)], [], [], 0, false, 0, 0, [], [], 9, []⟩ = some st2
      ∧ st2.sharedTable = []
      ∧ ∀ p ∈ (⟨[(1, ⟨4, [65]⟩)], [], [], 0, false, 0, 0, [], [], 9, []⟩ : StrState).sharedTable,
          ∃ wh, cht_find st2.deadIds st2.localTable p.2.content = some wh
            ∧ wh.target.content = p.2.content
            ∧ (lookup ⟨fun s => s.length, fun seed s => seed + s.length⟩ st2
                 p.2.content).1 = some wh.target :=
  (transfer_shared_strings_spec ⟨fun s => s.length, fun seed s => seed + s.length⟩
    (fun _ => false) ⟨[(1, ⟨4, [65]⟩)], [], [], 0, false, 0, 0, [], [], 9, []⟩
    (by simp)).1 (by simp)

end StringTable
